import Mathlib

/-!
Shallow embedding of the ECG visualization core
(src/client/src/lib/ecg-utils.ts, src/client/src/components/ui/ecg-display.tsx,
and the demo page), together with theorems settling the frozen claims.

JS `number` values that only flow through comparisons and exact arithmetic are
embedded as `ℚ`; machine integers and counts as `ℕ`/`ℤ`.  `Math.floor` is `Int.floor`.
The unseeded `Math.random()` noise inside the waveform value computation is
abstracted as an explicit value oracle `vals : ℕ → ℚ` (one value per sample index);
none of the verified claims depends on the sample values produced by the oracle
except through comparisons, which the oracle ranges over universally.
-/

namespace ECGViz

/-- `ECGDataPoint` from ecg-utils.ts: `{ value: number; timestamp: number }`. -/
structure ECGDataPoint where
  value : ℚ
  timestamp : ℚ
  deriving DecidableEq, Repr

/-- `ECGConfiguration` from ecg-utils.ts.  `samplingRate` is a positive integer per
the data model (the only values reaching it in the repo are integers; 128 in the demo). -/
structure ECGConfiguration where
  samplingRate : ℕ
  timeScale : ℚ
  amplitude : ℚ
  gridSize : ℚ
  leadConfiguration : String
  deriving DecidableEq, Repr

/-- `DEFAULT_CONFIG` from ecg-utils.ts. -/
def DEFAULT_CONFIG : ECGConfiguration :=
  { samplingRate := 128, timeScale := 25, amplitude := 10, gridSize := 5,
    leadConfiguration := "II" }

/-- The window partition walked by `decimateData`'s outer loop
(`for (let i = 0; i < data.length; i += stride)`, window `[i, min(i+stride, len))`).
The `stride = 0` case mirrors the JS division by zero (`Math.floor(len/0) = Infinity`),
where the loop body runs once over the whole array; it is unreachable for the
positive `targetPoints` of every claim. -/
def chunk (stride : ℕ) : List α → List (List α)
  | [] => []
  | a :: rest =>
    if stride = 0 then [a :: rest]
    else (a :: rest).take stride :: chunk stride ((a :: rest).drop stride)
termination_by l => l.length
decreasing_by
  simp only [List.length_drop, List.length_cons]
  omega

/-- The min-scan of `decimateData`'s inner loop: starting from `data[i]`
(`minVal` starts at `Infinity`, so the first element always wins),
replace on strict `<` of `value`. -/
def minOfWindow (h : ECGDataPoint) (t : List ECGDataPoint) : ECGDataPoint :=
  t.foldl (fun m p => if p.value < m.value then p else m) h

/-- The max-scan of `decimateData`'s inner loop (strict `>` of `value`,
`maxVal` starts at `-Infinity`). -/
def maxOfWindow (h : ECGDataPoint) (t : List ECGDataPoint) : ECGDataPoint :=
  t.foldl (fun m p => if m.value < p.value then p else m) h

/-- Per-window emission of `decimateData`: push min and max point of the window,
ordered by their timestamps (`minPoint.timestamp < maxPoint.timestamp`). -/
def emitWindow : List ECGDataPoint → List ECGDataPoint
  | [] => []
  | h :: t =>
    let minPoint := minOfWindow h t
    let maxPoint := maxOfWindow h t
    if minPoint.timestamp < maxPoint.timestamp then [minPoint, maxPoint]
    else [maxPoint, minPoint]

/-- `decimateData` from ecg-utils.ts: no-op below threshold, else
`stride = Math.floor(data.length / targetPoints)` and two points per window. -/
def decimateData (data : List ECGDataPoint) (targetPoints : ℕ) : List ECGDataPoint :=
  if data.length ≤ targetPoints then data
  else
    let stride := data.length / targetPoints
    ((chunk stride data).map emitWindow).flatten

/-- `samplesCount = Math.floor(duration * config.samplingRate)` in `generateMockECG`. -/
def samplesCount (duration : ℚ) (samplingRate : ℕ) : ℕ :=
  (⌊duration * samplingRate⌋).toNat

/-- `startTime` in `generateMockECG`:
`duration <= 0.1 ? now : Math.floor(now / 1000) * 1000`. -/
def mockStartTime (duration : ℚ) (now : ℤ) : ℤ :=
  if duration ≤ 1/10 then now else ⌊(now : ℚ) / 1000⌋ * 1000

/-- The timestamp of sample `i` in `generateMockECG`:
`t = i / config.samplingRate`; `timestamp = startTime - duration * 1000 + Math.floor(t * 1000)`. -/
def mockTimestamp (duration : ℚ) (samplingRate : ℕ) (now : ℤ) (i : ℕ) : ℚ :=
  (mockStartTime duration now : ℚ) - duration * 1000 + ⌊((i : ℚ) / samplingRate) * 1000⌋

/-- `generateMockECG` from ecg-utils.ts.  The two nested batching loops visit the
indices `i = 0, …, samplesCount - 1` in order, so the point list is the image of
`List.range samplesCount`.  Sample values (waveform components plus `Math.random()`
noise) are abstracted by the oracle `vals`; `now` is the `Date.now()` reading. -/
def generateMockECG (duration : ℚ) (config : ECGConfiguration) (now : ℤ)
    (vals : ℕ → ℚ) : List ECGDataPoint :=
  (List.range (samplesCount duration config.samplingRate)).map fun i =>
    { value := vals i, timestamp := mockTimestamp duration config.samplingRate now i }

/-- One producer tick of the demo page (src/unnamed/part_000, `Demo`):
every 100 ms it generates 200 ms of data and sets
`[...prev.filter(p => p.timestamp > Date.now() - 12000), ...newData]`.
The config is the demo's `DEFAULT_CONFIG` (the controls never change `samplingRate`).
`now` models the tick's clock reading (the spec reads the clock once per append). -/
def appendCycle (prev : List ECGDataPoint) (now : ℤ) (vals : ℕ → ℚ) : List ECGDataPoint :=
  (prev.filter fun p => ((now : ℚ) - 12000) < p.timestamp) ++
    generateMockECG (1/5) DEFAULT_CONFIG now vals

/-- A sequence of demo producer ticks, applied to the initially empty array;
each cycle carries its clock reading and its value oracle. -/
def runDemo (cycles : List (ℤ × (ℕ → ℚ))) : List ECGDataPoint :=
  cycles.foldl (fun st c => appendCycle st c.1 c.2) []

/-- The clock reading of the last cycle of `n₀ :: (cycles).map fst`. -/
def lastClock (n₀ : ℤ) : List (ℤ × (ℕ → ℚ)) → ℤ
  | [] => n₀
  | c :: cs => lastClock c.1 cs

/-- Timestamp ordering between samples (the buffer ordering invariant). -/
def tsLE (a b : ECGDataPoint) : Prop := a.timestamp ≤ b.timestamp

instance : DecidableRel tsLE := fun a b => inferInstanceAs (Decidable (a.timestamp ≤ b.timestamp))

/-- The second-aligned batch anchor of a demo tick:
`mockStartTime` for the demo's 0.2-second duration. -/
def demoAnchor (now : ℤ) : ℤ := ⌊(now : ℚ) / 1000⌋ * 1000

/-- `row = Math.floor(y / rowHeight)` in `handleCanvasClick`
(ecg-display.tsx; `y` already includes `container.scrollTop`, `rowHeight = 120`). -/
def clickRow (y : ℚ) : ℤ := ⌊y / 120⌋

/-- `segment = Math.floor(clickTime / 20)` with
`clickTime = x * (timeWindow / width)`, `timeWindow = 60`. -/
def clickSegment (x width : ℚ) : ℤ := ⌊x * (60 / width) / 20⌋

/-- `handleCanvasClick` from ecg-display.tsx, lines 30–58: unconditionally stores
`newSelectedSegment = row * 3 + segment` and invokes `onSegmentSelect` with that
index and the samples filtered into
`[segmentStartTime, segmentEndTime)`, where
`segmentStartTime = now - totalDuration*1000 + (row*60 + segment*20)*1000`.
Result: (stored selection, callback sample payload).  There is no branch on the
row or segment being in range. -/
def handleCanvasClick (x y width : ℚ) (data : List ECGDataPoint) (now : ℚ) :
    ℤ × List ECGDataPoint :=
  let row := clickRow y
  let segment := clickSegment x width
  let newSelectedSegment := row * 3 + segment
  let segmentStartTime := now - 1800 * 1000 + ((row : ℚ) * 60 + (segment : ℚ) * 20) * 1000
  let segmentEndTime := segmentStartTime + 20000
  (newSelectedSegment,
    data.filter fun p => segmentStartTime ≤ p.timestamp ∧ p.timestamp < segmentEndTime)

/-- The outcome of one `updateCanvas` pass of `ECGDisplay` (ecg-display.tsx):
the derived geometry factor and, per visible row, the decimated row trace data. -/
structure UpdateCanvasResult where
  pixelsPerMm : ℚ
  renderedRows : List (ℤ × List ECGDataPoint)
  deriving DecidableEq, Repr

/-- `updateCanvas` from ecg-display.tsx (lines 65–169), data/geometry part:
`pixelsPerMm = width / (config.timeScale * timeWindow)` (`timeWindow = 60`),
`visibleRows = Math.ceil(clientHeight / rowHeight) + 1`,
`startRow = Math.floor(scrollTop / rowHeight)`, `endRow = min(rows, startRow + visibleRows)`
(`rows = 30`); for each row in `[startRow, endRow)` the row's samples are filtered by
`rowStartTime ≤ timestamp/1000 < rowStartTime + 60` with
`rowStartTime = now/1000 - 1800 + row*60`, then decimated to `Math.floor(width / 2)`
points.  The computation branches on nothing but the row loop — in particular it
never inspects the configuration for validity. -/
def updateCanvas (width clientHeight scrollTop : ℚ) (config : ECGConfiguration)
    (data : List ECGDataPoint) (now : ℚ) : UpdateCanvasResult :=
  let pixelsPerMm := width / (config.timeScale * 60)
  let currentTime := now / 1000
  let visibleRows : ℤ := ⌈clientHeight / 120⌉ + 1
  let startRow : ℤ := ⌊scrollTop / 120⌋
  let endRow : ℤ := min 30 (startRow + visibleRows)
  { pixelsPerMm := pixelsPerMm
    renderedRows :=
      ((List.range (endRow - startRow).toNat).map fun j => startRow + (j : ℤ)).map fun (row : ℤ) =>
        let rowStartTime := currentTime - 1800 + (row : ℚ) * 60
        let rowData := data.filter fun p =>
          rowStartTime ≤ p.timestamp / 1000 ∧ p.timestamp / 1000 < rowStartTime + 60
        (row, decimateData rowData (⌊width / 2⌋).toNat) }

/-- Modelled from the spec: §7's defensive guard, missing from src.  "all geometry
and mapping computations must guard division-by-zero (zero rate, zero scale) by
treating the configuration as invalid and refusing to schedule production/rendering
until corrected".  The guarded renderer refuses (returns `none`) exactly on
`timeScale = 0` or `samplingRate = 0` and otherwise behaves like the code. -/
def specGuardedUpdateCanvas (width clientHeight scrollTop : ℚ) (config : ECGConfiguration)
    (data : List ECGDataPoint) (now : ℚ) : Option UpdateCanvasResult :=
  if config.timeScale = 0 ∨ config.samplingRate = 0 then none
  else some (updateCanvas width clientHeight scrollTop config data now)

/-! ### Helper lemmas about the window partition -/

theorem chunk_flatten (s : ℕ) (l : List α) : (chunk s l).flatten = l := by
  induction l using chunk.induct s with
  | case1 => simp [chunk]
  | case2 a rest h => simp [chunk, h]
  | case3 a rest h ih => simp [chunk, h, ih]

theorem ne_nil_of_mem_chunk {s : ℕ} {l w : List α} (hw : w ∈ chunk s l) : w ≠ [] := by
  induction l using chunk.induct s with
  | case1 => simp [chunk] at hw
  | case2 a rest h =>
    simp only [chunk, if_pos h, List.mem_singleton] at hw
    subst hw; simp
  | case3 a rest h ih =>
    simp only [chunk, if_neg h, List.mem_cons] at hw
    rcases hw with hw | hw
    · subst hw
      simp only [ne_eq, List.take_eq_nil_iff]
      push_neg
      exact ⟨h, by simp⟩
    · exact ih hw

theorem mem_of_mem_chunk {s : ℕ} {l w : List α} {p : α} (hw : w ∈ chunk s l)
    (hp : p ∈ w) : p ∈ l :=
  (chunk_flatten s l) ▸ List.mem_flatten.mpr ⟨w, hw, hp⟩

theorem chunk_length (s : ℕ) (hs : 0 < s) (l : List α) :
    (chunk s l).length = (l.length + s - 1) / s := by
  induction l using chunk.induct s with
  | case1 =>
    simp only [chunk, List.length_nil, List.length]
    symm
    exact Nat.div_eq_of_lt (by omega)
  | case2 a rest h => omega
  | case3 a rest h ih =>
    rw [chunk, if_neg h, List.length_cons, ih]
    simp only [List.length_drop, List.length_cons]
    rcases le_or_lt s (rest.length + 1) with hle | hlt
    · have h1 : rest.length + 1 - s + s - 1 = rest.length := by omega
      have h2 : rest.length + 1 + s - 1 = rest.length + s := by omega
      rw [h1, h2, Nat.add_div_right _ hs]
    · have h1 : rest.length + 1 - s = 0 := by omega
      have h2 : rest.length + 1 + s - 1 = rest.length + s := by omega
      rw [h1, h2, Nat.add_div_right _ hs]
      have h3 : (0 + s - 1) / s = 0 := Nat.div_eq_of_lt (by omega)
      have h4 : rest.length / s = 0 := Nat.div_eq_of_lt (by omega)
      rw [h3, h4]

/-! ### Helper lemmas about the per-window min/max scans -/

theorem foldl_choice_mem (f : ECGDataPoint → ECGDataPoint → ECGDataPoint)
    (hf : ∀ m p, f m p = m ∨ f m p = p) (h : ECGDataPoint) (t : List ECGDataPoint) :
    t.foldl f h ∈ h :: t := by
  induction t generalizing h with
  | nil => simp
  | cons b t ih =>
    simp only [List.foldl_cons]
    rcases hf h b with hfb | hfb <;> rw [hfb]
    · have hh := ih h
      simp only [List.mem_cons] at hh ⊢
      tauto
    · have hh := ih b
      simp only [List.mem_cons] at hh ⊢
      tauto

theorem minOfWindow_mem (h : ECGDataPoint) (t : List ECGDataPoint) :
    minOfWindow h t ∈ h :: t := by
  apply foldl_choice_mem
  intro m p
  by_cases hc : p.value < m.value <;> simp [hc]

theorem maxOfWindow_mem (h : ECGDataPoint) (t : List ECGDataPoint) :
    maxOfWindow h t ∈ h :: t := by
  apply foldl_choice_mem
  intro m p
  by_cases hc : m.value < p.value <;> simp [hc]

theorem minOfWindow_le : ∀ (t : List ECGDataPoint) (h q : ECGDataPoint),
    q ∈ h :: t → (minOfWindow h t).value ≤ q.value := by
  intro t
  induction t with
  | nil =>
    intro h q hq
    rw [List.mem_singleton] at hq
    subst hq
    exact le_refl _
  | cons b t ih =>
    intro h q hq
    have step : minOfWindow h (b :: t) = minOfWindow (if b.value < h.value then b else h) t := rfl
    have hle_h : (if b.value < h.value then b else h).value ≤ h.value := by
      split
      · exact le_of_lt (by assumption)
      · exact le_refl _
    have hle_b : (if b.value < h.value then b else h).value ≤ b.value := by
      split
      · exact le_refl _
      · exact le_of_not_lt (by assumption)
    have hhead : (minOfWindow (if b.value < h.value then b else h) t).value ≤
        (if b.value < h.value then b else h).value :=
      ih _ _ (List.mem_cons_self _ _)
    rcases List.mem_cons.mp hq with rfl | hq'
    · exact step ▸ le_trans hhead hle_h
    · rcases List.mem_cons.mp hq' with rfl | hq''
      · exact step ▸ le_trans hhead hle_b
      · exact step ▸ ih _ _ (List.mem_cons_of_mem _ hq'')

theorem le_maxOfWindow : ∀ (t : List ECGDataPoint) (h q : ECGDataPoint),
    q ∈ h :: t → q.value ≤ (maxOfWindow h t).value := by
  intro t
  induction t with
  | nil =>
    intro h q hq
    rw [List.mem_singleton] at hq
    subst hq
    exact le_refl _
  | cons b t ih =>
    intro h q hq
    have step : maxOfWindow h (b :: t) = maxOfWindow (if h.value < b.value then b else h) t := rfl
    have hle_h : h.value ≤ (if h.value < b.value then b else h).value := by
      split
      · exact le_of_lt (by assumption)
      · exact le_refl _
    have hle_b : b.value ≤ (if h.value < b.value then b else h).value := by
      split
      · exact le_refl _
      · exact le_of_not_lt (by assumption)
    have hhead : (if h.value < b.value then b else h).value ≤
        (maxOfWindow (if h.value < b.value then b else h) t).value :=
      ih _ _ (List.mem_cons_self _ _)
    rcases List.mem_cons.mp hq with rfl | hq'
    · exact step ▸ le_trans hle_h hhead
    · rcases List.mem_cons.mp hq' with rfl | hq''
      · exact step ▸ le_trans hle_b hhead
      · exact step ▸ ih _ _ (List.mem_cons_of_mem _ hq'')

theorem maxOfWindow_eq_of_forall_lt : ∀ (t : List ECGDataPoint) (h p : ECGDataPoint),
    p ∈ h :: t → (∀ q ∈ h :: t, q ≠ p → q.value < p.value) → maxOfWindow h t = p := by
  intro t
  induction t with
  | nil =>
    intro h p hp _
    rw [List.mem_singleton] at hp
    subst hp
    rfl
  | cons b t ih =>
    intro h p hp hmax
    have step : maxOfWindow h (b :: t) = maxOfWindow (if h.value < b.value then b else h) t := rfl
    have hmem : (if h.value < b.value then b else h) ∈ h :: b :: t := by
      split <;> simp
    have hp' : p ∈ (if h.value < b.value then b else h) :: t := by
      rcases List.mem_cons.mp hp with rfl | hp1
      · -- p = h
        by_cases hbp : b = p
        · subst hbp
          split <;> exact List.mem_cons_self _ _
        · have hblt : b.value < p.value := hmax b (by simp) hbp
          rw [if_neg (not_lt.mpr (le_of_lt hblt))]
          exact List.mem_cons_self _ _
      · rcases List.mem_cons.mp hp1 with rfl | hp2
        · -- p = b
          by_cases hhp : h = p
          · subst hhp
            split <;> exact List.mem_cons_self _ _
          · have hhlt : h.value < p.value := hmax h (by simp) hhp
            rw [if_pos hhlt]
            exact List.mem_cons_self _ _
        · exact List.mem_cons_of_mem _ hp2
    apply step ▸ ih _ p hp'
    intro q hq hqp
    apply hmax q _ hqp
    rcases List.mem_cons.mp hq with rfl | hq'
    · exact hmem
    · exact List.mem_cons_of_mem _ (List.mem_cons_of_mem _ hq')

/-! ### Helper lemmas about the per-window emission -/

theorem emitWindow_length {w : List ECGDataPoint} (hw : w ≠ []) :
    (emitWindow w).length = 2 := by
  cases w with
  | nil => exact absurd rfl hw
  | cons h t =>
    simp only [emitWindow]
    split <;> rfl

theorem mem_of_mem_emitWindow {w : List ECGDataPoint} {p : ECGDataPoint}
    (hp : p ∈ emitWindow w) : p ∈ w := by
  cases w with
  | nil => simp [emitWindow] at hp
  | cons h t =>
    simp only [emitWindow] at hp
    split at hp <;> simp only [List.mem_cons, List.mem_singleton, List.not_mem_nil,
      or_false] at hp <;>
      rcases hp with rfl | rfl
    · exact minOfWindow_mem h t
    · exact maxOfWindow_mem h t
    · exact maxOfWindow_mem h t
    · exact minOfWindow_mem h t

theorem emitWindow_singleton (p : ECGDataPoint) : emitWindow [p] = [p, p] := by
  simp only [emitWindow, minOfWindow, maxOfWindow, List.foldl_nil]
  rw [if_neg (lt_irrefl _)]

theorem mem_emitWindow_of_strict_max {w : List ECGDataPoint} {p : ECGDataPoint}
    (hw : p ∈ w) (hmax : ∀ q ∈ w, q ≠ p → q.value < p.value) : p ∈ emitWindow w := by
  cases w with
  | nil => simp at hw
  | cons h t =>
    have hmx : maxOfWindow h t = p := maxOfWindow_eq_of_forall_lt t h p hw hmax
    simp only [emitWindow]
    split <;> simp [hmx]

/-! ### Helper lemmas about decimateData -/

theorem decimateData_eq_flatten {data : List ECGDataPoint} {targetPoints : ℕ}
    (h : targetPoints < data.length) :
    decimateData data targetPoints =
      ((chunk (data.length / targetPoints) data).map emitWindow).flatten := by
  unfold decimateData
  rw [if_neg (by omega)]

theorem mem_data_of_mem_decimate {data : List ECGDataPoint} {targetPoints : ℕ}
    {p : ECGDataPoint} (hp : p ∈ decimateData data targetPoints) : p ∈ data := by
  unfold decimateData at hp
  split at hp
  · exact hp
  · obtain ⟨ew, hew, hpw⟩ := List.mem_flatten.mp hp
    obtain ⟨w, hw, rfl⟩ := List.mem_map.mp hew
    exact mem_of_mem_chunk hw (mem_of_mem_emitWindow hpw)

theorem flatten_map_emitWindow_length (L : List (List ECGDataPoint))
    (hL : ∀ w ∈ L, w ≠ []) : ((L.map emitWindow).flatten).length = 2 * L.length := by
  induction L with
  | nil => rfl
  | cons w L ih =>
    simp only [List.map_cons, List.flatten_cons, List.length_append, List.length_cons]
    rw [emitWindow_length (hL w (List.mem_cons_self _ _)),
      ih (fun v hv => hL v (List.mem_cons_of_mem _ hv))]
    ring

theorem decimateData_length {data : List ECGDataPoint} {targetPoints : ℕ}
    (ht : 0 < targetPoints) (h : targetPoints < data.length) :
    (decimateData data targetPoints).length =
      2 * ((data.length + data.length / targetPoints - 1) / (data.length / targetPoints)) := by
  have hs : 0 < data.length / targetPoints := Nat.div_pos (le_of_lt h) ht
  rw [decimateData_eq_flatten h,
    flatten_map_emitWindow_length _ (fun w hw => ne_nil_of_mem_chunk hw),
    chunk_length _ hs]

theorem generateMockECG_length (d : ℚ) (cfg : ECGConfiguration) (now : ℤ) (vals : ℕ → ℚ) :
    (generateMockECG d cfg now vals).length = samplesCount d cfg.samplingRate := by
  simp [generateMockECG]

theorem strict_max_mem_decimate {data : List ECGDataPoint} {targetPoints : ℕ}
    {p : ECGDataPoint} (hp : p ∈ data)
    (hmax : ∀ q ∈ data, q ≠ p → q.value < p.value) : p ∈ decimateData data targetPoints := by
  unfold decimateData
  split
  · exact hp
  · have hp' : p ∈ (chunk (data.length / targetPoints) data).flatten := by
      rw [chunk_flatten]
      exact hp
    obtain ⟨w, hw, hpw⟩ := List.mem_flatten.mp hp'
    refine List.mem_flatten.mpr ⟨emitWindow w, List.mem_map_of_mem _ hw, ?_⟩
    exact mem_emitWindow_of_strict_max hpw fun q hq hqp => hmax q (mem_of_mem_chunk hw hq) hqp

/-! ### C9 -/

/-- C9: for every list `s` and every positive integer `n` with `len(s) ≤ n`,
`decimateData s n = s` — the input is returned unchanged (no-op below threshold) —
so `decimateData` is idempotent on already-small inputs. -/
theorem decimate_noop_on_small (s : List ECGDataPoint) (n : ℕ) (hn : 0 < n)
    (h : s.length ≤ n) :
    decimateData s n = s ∧ decimateData (decimateData s n) n = decimateData s n := by
  have h1 : decimateData s n = s := by
    unfold decimateData
    rw [if_pos h]
  exact ⟨h1, by rw [h1, h1]⟩

/-- Witness for C9 at the two-sample list and `n = 5`. -/
theorem decimate_noop_on_small_witness :
    0 < 5 ∧ ([⟨1, 2⟩, ⟨3, 4⟩] : List ECGDataPoint).length ≤ 5 ∧
      (decimateData [⟨1, 2⟩, ⟨3, 4⟩] 5 = [⟨1, 2⟩, ⟨3, 4⟩] ∧
        decimateData (decimateData [⟨1, 2⟩, ⟨3, 4⟩] 5) 5 = decimateData [⟨1, 2⟩, ⟨3, 4⟩] 5) :=
  ⟨by decide, by decide, decimate_noop_on_small [⟨1, 2⟩, ⟨3, 4⟩] 5 (by decide) (by decide)⟩

/-! ### C10 -/

/-- C10: every element of `decimateData`'s output is an element of the input list:
the decimator only selects existing samples and never fabricates, averages, or
alters a value or timestamp. -/
theorem decimate_selects_existing (data : List ECGDataPoint) (targetPoints : ℕ)
    (ht : 0 < targetPoints) (p : ECGDataPoint)
    (hp : p ∈ decimateData data targetPoints) : p ∈ data :=
  mem_data_of_mem_decimate hp

/-- Witness for C10: the duplicated minimum emitted for the first window of a
three-sample decimation is indeed one of the input samples. -/
theorem decimate_selects_existing_witness :
    0 < 2 ∧ (⟨2, 2⟩ : ECGDataPoint) ∈ decimateData [⟨0, 0⟩, ⟨1, 1⟩, ⟨2, 2⟩] 2 ∧
      (⟨2, 2⟩ : ECGDataPoint) ∈ ([⟨0, 0⟩, ⟨1, 1⟩, ⟨2, 2⟩] : List ECGDataPoint) := by
  have hmem : (⟨2, 2⟩ : ECGDataPoint) ∈ decimateData [⟨0, 0⟩, ⟨1, 1⟩, ⟨2, 2⟩] 2 := by
    norm_num [decimateData, chunk, emitWindow, minOfWindow, maxOfWindow]
  exact ⟨by decide, hmem, decimate_selects_existing _ 2 (by decide) _ hmem⟩

/-! ### C8 -/

/-- C8: for every input list with `input.length > targetPoints` and every window of
the decimation partition (`decimateData` is the concatenation of `emitWindow` over
`chunk stride input`, first conjunct), the two points emitted for that window have
values equal to the minimum and the maximum of the values of that window's input
samples. -/
theorem decimate_window_minmax (data : List ECGDataPoint) (targetPoints : ℕ)
    (h : targetPoints < data.length) (w : List ECGDataPoint)
    (hw : w ∈ chunk (data.length / targetPoints) data) :
    decimateData data targetPoints =
      ((chunk (data.length / targetPoints) data).map emitWindow).flatten ∧
    ∃ pmin pmax : ECGDataPoint,
      (emitWindow w = [pmin, pmax] ∨ emitWindow w = [pmax, pmin]) ∧
      pmin ∈ w ∧ pmax ∈ w ∧
      ∀ q ∈ w, pmin.value ≤ q.value ∧ q.value ≤ pmax.value := by
  refine ⟨decimateData_eq_flatten h, ?_⟩
  cases w with
  | nil => exact absurd rfl (ne_nil_of_mem_chunk hw)
  | cons hd t =>
    refine ⟨minOfWindow hd t, maxOfWindow hd t, ?_, minOfWindow_mem hd t, maxOfWindow_mem hd t,
      fun q hq => ⟨minOfWindow_le t hd q hq, le_maxOfWindow t hd q hq⟩⟩
    simp only [emitWindow]
    split
    · exact Or.inl rfl
    · exact Or.inr rfl

/-- Witness for C8 at a four-sample list decimated to two windows of two samples. -/
theorem decimate_window_minmax_witness :
    2 < ([⟨0, 0⟩, ⟨5, 1⟩, ⟨2, 2⟩, ⟨1, 3⟩] : List ECGDataPoint).length ∧
    ([⟨0, 0⟩, ⟨5, 1⟩] : List ECGDataPoint) ∈
      chunk (([⟨0, 0⟩, ⟨5, 1⟩, ⟨2, 2⟩, ⟨1, 3⟩] : List ECGDataPoint).length / 2)
        [⟨0, 0⟩, ⟨5, 1⟩, ⟨2, 2⟩, ⟨1, 3⟩] ∧
    (decimateData [⟨0, 0⟩, ⟨5, 1⟩, ⟨2, 2⟩, ⟨1, 3⟩] 2 =
      ((chunk (([⟨0, 0⟩, ⟨5, 1⟩, ⟨2, 2⟩, ⟨1, 3⟩] : List ECGDataPoint).length / 2)
        [⟨0, 0⟩, ⟨5, 1⟩, ⟨2, 2⟩, ⟨1, 3⟩]).map emitWindow).flatten ∧
    ∃ pmin pmax : ECGDataPoint,
      (emitWindow [⟨0, 0⟩, ⟨5, 1⟩] = [pmin, pmax] ∨
        emitWindow [⟨0, 0⟩, ⟨5, 1⟩] = [pmax, pmin]) ∧
      pmin ∈ ([⟨0, 0⟩, ⟨5, 1⟩] : List ECGDataPoint) ∧
      pmax ∈ ([⟨0, 0⟩, ⟨5, 1⟩] : List ECGDataPoint) ∧
      ∀ q ∈ ([⟨0, 0⟩, ⟨5, 1⟩] : List ECGDataPoint),
        pmin.value ≤ q.value ∧ q.value ≤ pmax.value) := by
  have hw : ([⟨0, 0⟩, ⟨5, 1⟩] : List ECGDataPoint) ∈
      chunk (([⟨0, 0⟩, ⟨5, 1⟩, ⟨2, 2⟩, ⟨1, 3⟩] : List ECGDataPoint).length / 2)
        [⟨0, 0⟩, ⟨5, 1⟩, ⟨2, 2⟩, ⟨1, 3⟩] := by
    norm_num [chunk]
  exact ⟨by decide, hw, decimate_window_minmax _ 2 (by decide) _ hw⟩

/-! ### C3 -/

/-- C3 counterexample: with three samples decimated to `targetPoints = 2` the stride
is 1, every window contains exactly one sample, and the first window's sample
appears twice in the output (not once): the claim is false as stated. -/
theorem singleton_window_duplicated_counterexample :
    chunk (([⟨0, 0⟩, ⟨1, 1⟩, ⟨2, 2⟩] : List ECGDataPoint).length / 2)
        [⟨0, 0⟩, ⟨1, 1⟩, ⟨2, 2⟩] = ([[⟨0, 0⟩], [⟨1, 1⟩], [⟨2, 2⟩]] : List (List ECGDataPoint)) ∧
    ¬ (decimateData [⟨0, 0⟩, ⟨1, 1⟩, ⟨2, 2⟩] 2).count ⟨0, 0⟩ = 1 ∧
    (decimateData [⟨0, 0⟩, ⟨1, 1⟩, ⟨2, 2⟩] 2).count ⟨0, 0⟩ = 2 := by
  refine ⟨by norm_num [chunk], ?_, ?_⟩ <;>
    norm_num [decimateData, chunk, emitWindow, minOfWindow, maxOfWindow, List.count_cons]

/-- C3 amended: a decimation window that contains exactly one sample contributes
that single point to `decimateData`'s output exactly twice (it is emitted as both
the window minimum and the window maximum), not once. -/
theorem singleton_window_emits_twice (data : List ECGDataPoint) (targetPoints : ℕ)
    (h : targetPoints < data.length) (hnd : data.Nodup) (p : ECGDataPoint)
    (hw : [p] ∈ chunk (data.length / targetPoints) data) :
    (decimateData data targetPoints).count p = 2 := by
  rw [decimateData_eq_flatten h]
  have hflat : (chunk (data.length / targetPoints) data).flatten = data :=
    chunk_flatten _ data
  have hnodupJ : (chunk (data.length / targetPoints) data).flatten.Nodup := by
    rw [hflat]
    exact hnd
  obtain ⟨-, hdisj⟩ := List.nodup_flatten.mp hnodupJ
  obtain ⟨L₁, L₂, hL⟩ := List.append_of_mem hw
  rw [hL] at hdisj ⊢
  have hdisj₁ : ∀ w ∈ L₁, p ∉ w := by
    intro w hwmem hpw
    obtain ⟨-, -, hcross⟩ := List.pairwise_append.mp hdisj
    exact hcross w hwmem [p] (List.mem_cons_self _ _) hpw (List.mem_singleton.mpr rfl)
  have hdisj₂ : ∀ w ∈ L₂, p ∉ w := by
    intro w hwmem hpw
    obtain ⟨-, hp2, -⟩ := List.pairwise_append.mp hdisj
    exact (List.pairwise_cons.mp hp2).1 w hwmem (List.mem_singleton.mpr rfl) hpw
  have hzero : ∀ (L : List (List ECGDataPoint)), (∀ w ∈ L, p ∉ w) →
      ((L.map emitWindow).flatten).count p = 0 := by
    intro L hL0
    rw [List.count_eq_zero]
    intro hmem
    obtain ⟨ew, hew, hpew⟩ := List.mem_flatten.mp hmem
    obtain ⟨w, hwm, rfl⟩ := List.mem_map.mp hew
    exact hL0 w hwm (mem_of_mem_emitWindow hpew)
  rw [List.map_append, List.map_cons, List.flatten_append, List.flatten_cons,
    List.count_append, List.count_append, hzero L₁ hdisj₁, hzero L₂ hdisj₂,
    emitWindow_singleton]
  simp [List.count_cons]

/-- Witness for C3's amended claim at the three-sample decimation. -/
theorem singleton_window_emits_twice_witness :
    2 < ([⟨0, 0⟩, ⟨1, 1⟩, ⟨2, 2⟩] : List ECGDataPoint).length ∧
    ([⟨0, 0⟩, ⟨1, 1⟩, ⟨2, 2⟩] : List ECGDataPoint).Nodup ∧
    ([⟨0, 0⟩] : List ECGDataPoint) ∈
      chunk (([⟨0, 0⟩, ⟨1, 1⟩, ⟨2, 2⟩] : List ECGDataPoint).length / 2)
        [⟨0, 0⟩, ⟨1, 1⟩, ⟨2, 2⟩] ∧
    (decimateData [⟨0, 0⟩, ⟨1, 1⟩, ⟨2, 2⟩] 2).count ⟨0, 0⟩ = 2 := by
  have hnd : ([⟨0, 0⟩, ⟨1, 1⟩, ⟨2, 2⟩] : List ECGDataPoint).Nodup := by
    norm_num
  have hw : ([⟨0, 0⟩] : List ECGDataPoint) ∈
      chunk (([⟨0, 0⟩, ⟨1, 1⟩, ⟨2, 2⟩] : List ECGDataPoint).length / 2)
        [⟨0, 0⟩, ⟨1, 1⟩, ⟨2, 2⟩] := by
    norm_num [chunk]
  exact ⟨by decide, hnd, hw, singleton_window_emits_twice _ 2 (by decide) hnd _ hw⟩

/-! ### C1 -/

/-- C1 counterexample: in the §8 scenario (`samplingRate = 128`,
`generateMockECG(1.0, cfg)`), decimating the 128-sample batch with
`targetPoints = 50` gives `stride = 2`, 64 windows of two samples, and two emitted
points per window — 128 output samples, which is not at most 100. -/
theorem scenario128_decimate_exceeds_100 :
    (generateMockECG 1 DEFAULT_CONFIG 0 (fun i => (i : ℚ))).length = 128 ∧
    ¬ ((decimateData (generateMockECG 1 DEFAULT_CONFIG 0 (fun i => (i : ℚ))) 50).length ≤ 100) := by
  have hlen : (generateMockECG 1 DEFAULT_CONFIG 0 (fun i => (i : ℚ))).length = 128 := by
    rw [generateMockECG_length]
    norm_num [samplesCount, DEFAULT_CONFIG]
    decide
  have hdec : (decimateData (generateMockECG 1 DEFAULT_CONFIG 0 (fun i => (i : ℚ))) 50).length
      = 128 := by
    rw [decimateData_length (by norm_num) (by omega), hlen]
  exact ⟨hlen, by omega⟩

/-- C1 (amended): in the §8 scenario, `generateMockECG(1.0, cfg)` yields exactly
128 samples and `decimateData` with `targetPoints = 50` returns exactly 128 samples
(`2 · ⌈128 / stride⌉` with `stride = 2` — not at most 100), and the largest-value
sample of the full sequence (when the largest value is uniquely attained) appears
unchanged in the decimated output. -/
theorem scenario128_decimate_length_and_spike (now : ℤ) (vals : ℕ → ℚ) (p : ECGDataPoint)
    (hp : p ∈ generateMockECG 1 DEFAULT_CONFIG now vals)
    (hmax : ∀ q ∈ generateMockECG 1 DEFAULT_CONFIG now vals, q ≠ p → q.value < p.value) :
    (generateMockECG 1 DEFAULT_CONFIG now vals).length = 128 ∧
    (decimateData (generateMockECG 1 DEFAULT_CONFIG now vals) 50).length = 128 ∧
    p ∈ decimateData (generateMockECG 1 DEFAULT_CONFIG now vals) 50 := by
  have hlen : (generateMockECG 1 DEFAULT_CONFIG now vals).length = 128 := by
    rw [generateMockECG_length]
    norm_num [samplesCount, DEFAULT_CONFIG]
    decide
  refine ⟨hlen, ?_, strict_max_mem_decimate hp hmax⟩
  rw [decimateData_length (by norm_num) (by omega), hlen]

/-- Witness for C1's amended claim: concrete clock reading 0 and the value oracle
`i ↦ i`, whose unique spike is the last sample `⟨127, -8⟩`. -/
theorem scenario128_decimate_length_and_spike_witness :
    (⟨127, -8⟩ : ECGDataPoint) ∈ generateMockECG 1 DEFAULT_CONFIG 0 (fun i => (i : ℚ)) ∧
    (∀ q ∈ generateMockECG 1 DEFAULT_CONFIG 0 (fun i => (i : ℚ)),
      q ≠ (⟨127, -8⟩ : ECGDataPoint) → q.value < (127 : ℚ)) ∧
    ((generateMockECG 1 DEFAULT_CONFIG 0 (fun i => (i : ℚ))).length = 128 ∧
      (decimateData (generateMockECG 1 DEFAULT_CONFIG 0 (fun i => (i : ℚ))) 50).length = 128 ∧
      (⟨127, -8⟩ : ECGDataPoint) ∈
        decimateData (generateMockECG 1 DEFAULT_CONFIG 0 (fun i => (i : ℚ))) 50) := by
  have hsc : samplesCount 1 DEFAULT_CONFIG.samplingRate = 128 := by
    norm_num [samplesCount, DEFAULT_CONFIG]
    decide
  have hts : mockTimestamp 1 DEFAULT_CONFIG.samplingRate 0 127 = -8 := by
    norm_num [mockTimestamp, mockStartTime, DEFAULT_CONFIG]
  have hp : (⟨127, -8⟩ : ECGDataPoint) ∈ generateMockECG 1 DEFAULT_CONFIG 0 (fun i => (i : ℚ)) := by
    unfold generateMockECG
    refine List.mem_map.mpr ⟨127, List.mem_range.mpr (by omega), ?_⟩
    rw [hts]
    norm_num
  have hmax : ∀ q ∈ generateMockECG 1 DEFAULT_CONFIG 0 (fun i => (i : ℚ)),
      q ≠ (⟨127, -8⟩ : ECGDataPoint) → q.value < (127 : ℚ) := by
    intro q hq hne
    obtain ⟨i, hi, rfl⟩ := List.mem_map.mp hq
    rw [List.mem_range, hsc] at hi
    by_cases h127 : i = 127
    · subst h127
      exact absurd (by rw [hts]; norm_num) hne
    · show (i : ℚ) < 127
      have : i ≤ 126 := by omega
      calc (i : ℚ) ≤ 126 := by exact_mod_cast this
        _ < 127 := by norm_num
  exact ⟨hp, hmax, scenario128_decimate_length_and_spike 0 (fun i => (i : ℚ)) ⟨127, -8⟩ hp hmax⟩

/-! ### C6 -/

/-- C6 counterexample: a click computing row 30 (outside `[0, 30)`, e.g. pointer
y 100 with scroll offset 3600) is not a no-op: the row is not clamped and the
handler stores segment id 90 and produces a callback invocation with that id. -/
theorem out_of_range_click_not_noop_counterexample :
    clickRow 3700 = 30 ∧ ¬ (clickRow 3700 < 30) ∧
    (handleCanvasClick 10 3700 800 [] 0).1 = 90 := by
  refine ⟨?_, ?_, ?_⟩
  · norm_num [clickRow]
  · norm_num [clickRow]
  · norm_num [handleCanvasClick, clickRow, clickSegment]

/-- C6 (amended): out-of-range clicks are neither clamped nor dropped:
`handleCanvasClick` always stores `row * 3 + segment` and invokes the
segment-selection callback with that index, and for any click with
`y ≥ totalRows * rowHeight = 3600` the stored id is at least 90, outside the valid
segment range. -/
theorem out_of_range_click_selects (x y width : ℚ) (data : List ECGDataPoint) (now : ℚ)
    (hx : 0 ≤ x) (hw : 0 < width) (hy : 3600 ≤ y) :
    30 ≤ clickRow y ∧
    (handleCanvasClick x y width data now).1 = clickRow y * 3 + clickSegment x width ∧
    90 ≤ (handleCanvasClick x y width data now).1 := by
  have hrow : 30 ≤ clickRow y := by
    unfold clickRow
    rw [Int.le_floor]
    push_cast
    rw [le_div_iff₀ (by norm_num)]
    linarith
  have hseg : 0 ≤ clickSegment x width := by
    unfold clickSegment
    rw [Int.le_floor]
    push_cast
    positivity
  exact ⟨hrow, rfl, by show 90 ≤ clickRow y * 3 + clickSegment x width; omega⟩

/-- Witness for C6's amended claim at the concrete out-of-range click of the
counterexample's geometry. -/
theorem out_of_range_click_selects_witness :
    (0 : ℚ) ≤ 10 ∧ (0 : ℚ) < 800 ∧ (3600 : ℚ) ≤ 3700 ∧
    (30 ≤ clickRow 3700 ∧
      (handleCanvasClick 10 3700 800 [] 0).1 = clickRow 3700 * 3 + clickSegment 10 800 ∧
      90 ≤ (handleCanvasClick 10 3700 800 [] 0).1) :=
  ⟨by norm_num, by norm_num, by norm_num,
    out_of_range_click_selects 10 3700 800 [] 0 (by norm_num) (by norm_num) (by norm_num)⟩

/-! ### C7 -/

/-- C7: for every valid segment id `k < 90`, a synthetic click at the computed pixel
center of segment `k` — x at the horizontal center of segment `k % 3` within the row
width, pointer y at the vertical center of row `k / 3` adjusted by the scroll offset
(the handler adds the offset back) — makes `row * 3 + segment` recover exactly `k`. -/
theorem segment_center_click_roundtrip (k : ℕ) (hk : k < 90) (width scroll : ℚ)
    (hw : 0 < width) :
    clickRow ((((k / 3 : ℕ) : ℚ) * 120 + 60 - scroll) + scroll) = ((k / 3 : ℕ) : ℤ) ∧
    clickSegment ((((k % 3 : ℕ) : ℚ) + 1/2) * (width / 3)) width = ((k % 3 : ℕ) : ℤ) ∧
    (handleCanvasClick ((((k % 3 : ℕ) : ℚ) + 1/2) * (width / 3))
        ((((k / 3 : ℕ) : ℚ) * 120 + 60 - scroll) + scroll) width [] 0).1 = (k : ℤ) := by
  have hrow : clickRow ((((k / 3 : ℕ) : ℚ) * 120 + 60 - scroll) + scroll) = ((k / 3 : ℕ) : ℤ) := by
    unfold clickRow
    have harg : ((((k / 3 : ℕ) : ℚ) * 120 + 60 - scroll) + scroll) / 120
        = (((k / 3 : ℕ) : ℤ) : ℚ) + 1/2 := by
      rw [Int.cast_natCast]
      ring
    rw [harg, Int.floor_int_add]
    norm_num
  have hseg : clickSegment ((((k % 3 : ℕ) : ℚ) + 1/2) * (width / 3)) width
      = ((k % 3 : ℕ) : ℤ) := by
    unfold clickSegment
    have harg : (((k % 3 : ℕ) : ℚ) + 1/2) * (width / 3) * (60 / width) / 20
        = (((k % 3 : ℕ) : ℤ) : ℚ) + 1/2 := by
      rw [Int.cast_natCast]
      field_simp
      ring
    rw [harg, Int.floor_int_add]
    norm_num
  refine ⟨hrow, hseg, ?_⟩
  show clickRow _ * 3 + clickSegment _ _ = (k : ℤ)
  rw [hrow, hseg]
  omega

/-- Witness for C7 at segment id 4 (row 1, segment 1), width 800, scroll offset 40. -/
theorem segment_center_click_roundtrip_witness :
    4 < 90 ∧ (0 : ℚ) < 800 ∧
    (clickRow ((((4 / 3 : ℕ) : ℚ) * 120 + 60 - 40) + 40) = ((4 / 3 : ℕ) : ℤ) ∧
      clickSegment ((((4 % 3 : ℕ) : ℚ) + 1/2) * (800 / 3)) 800 = ((4 % 3 : ℕ) : ℤ) ∧
      (handleCanvasClick ((((4 % 3 : ℕ) : ℚ) + 1/2) * (800 / 3))
          ((((4 / 3 : ℕ) : ℚ) * 120 + 60 - 40) + 40) 800 [] 0).1 = ((4 : ℕ) : ℤ)) :=
  ⟨by decide, by norm_num, segment_center_click_roundtrip 4 (by decide) 800 40 (by norm_num)⟩

/-! ### C5 -/

/-- C5 counterexample: with `timeScale = 0` the spec-modelled guard refuses to
render, but the code's `updateCanvas` still schedules 6 rows of drawing for a
600-pixel-high viewport (and computes `pixelsPerMm` from the zero divisor):
the configuration is not treated as invalid and rendering is not refused. -/
theorem zero_timescale_still_renders_counterexample :
    specGuardedUpdateCanvas 800 600 0 { DEFAULT_CONFIG with timeScale := 0 } [] 0 = none ∧
    (updateCanvas 800 600 0 { DEFAULT_CONFIG with timeScale := 0 } [] 0).renderedRows.length
      = 6 := by
  constructor
  · simp [specGuardedUpdateCanvas]
  · norm_num [updateCanvas]
    decide

/-- C5 (amended): there is no division-by-zero guard: the configuration is never
validated, and for `timeScale = 0` or `samplingRate = 0` the spec-modelled guarded
renderer refuses (`none`) while the code's `updateCanvas` schedules exactly the same
rows as for the valid default configuration, computing
`pixelsPerMm = width / (timeScale · 60)` unconditionally (in JS the zero divisor
yields `Infinity`/`NaN` geometry rather than a refusal). -/
theorem no_zero_guard_renders_anyway (width clientHeight scrollTop : ℚ)
    (config : ECGConfiguration) (data : List ECGDataPoint) (now : ℚ)
    (hz : config.timeScale = 0 ∨ config.samplingRate = 0) :
    specGuardedUpdateCanvas width clientHeight scrollTop config data now = none ∧
    (updateCanvas width clientHeight scrollTop config data now).renderedRows.map Prod.fst =
      (updateCanvas width clientHeight scrollTop DEFAULT_CONFIG data now).renderedRows.map
        Prod.fst ∧
    (updateCanvas width clientHeight scrollTop config data now).pixelsPerMm =
      width / (config.timeScale * 60) := by
  refine ⟨?_, ?_, rfl⟩
  · unfold specGuardedUpdateCanvas
    rw [if_pos hz]
  · simp only [updateCanvas, List.map_map]

/-- Witness for C5's amended claim at the zero-`timeScale` configuration. -/
theorem no_zero_guard_renders_anyway_witness :
    (({ DEFAULT_CONFIG with timeScale := 0 } : ECGConfiguration).timeScale = 0 ∨
      ({ DEFAULT_CONFIG with timeScale := 0 } : ECGConfiguration).samplingRate = 0) ∧
    (specGuardedUpdateCanvas 800 600 0 { DEFAULT_CONFIG with timeScale := 0 } [] 0 = none ∧
      (updateCanvas 800 600 0 { DEFAULT_CONFIG with timeScale := 0 } [] 0).renderedRows.map
          Prod.fst =
        (updateCanvas 800 600 0 DEFAULT_CONFIG [] 0).renderedRows.map Prod.fst ∧
      (updateCanvas 800 600 0 { DEFAULT_CONFIG with timeScale := 0 } [] 0).pixelsPerMm =
        800 / (({ DEFAULT_CONFIG with timeScale := 0 } : ECGConfiguration).timeScale * 60)) :=
  ⟨Or.inl rfl, no_zero_guard_renders_anyway 800 600 0 _ [] 0 (Or.inl rfl)⟩

/-! ### C2 helper lemmas -/

theorem floor_add_sub_bounds (x c : ℚ) :
    ⌊c⌋ ≤ ⌊x + c⌋ - ⌊x⌋ ∧ ⌊x + c⌋ - ⌊x⌋ ≤ ⌈c⌉ := by
  constructor
  · have h1 : ((⌊x⌋ + ⌊c⌋ : ℤ) : ℚ) ≤ x + c := by
      push_cast
      exact add_le_add (Int.floor_le x) (Int.floor_le c)
    have h2 : ⌊x⌋ + ⌊c⌋ ≤ ⌊x + c⌋ := Int.le_floor.mpr h1
    omega
  · have h2 : ⌊x + c⌋ ≤ ⌊x + (⌈c⌉ : ℚ)⌋ :=
      Int.floor_le_floor (by linarith [Int.le_ceil c])
    rw [Int.floor_add_int] at h2
    omega

theorem samplesCount_eq {d : ℚ} {r : ℕ} {n : ℕ} (hn : (n : ℚ) = d * r) :
    samplesCount d r = n := by
  unfold samplesCount
  rw [← hn, Int.floor_natCast, Int.toNat_natCast]

theorem generateMockECG_map_timestamp (d : ℚ) (cfg : ECGConfiguration) (now : ℤ)
    (vals : ℕ → ℚ) :
    (generateMockECG d cfg now vals).map ECGDataPoint.timestamp
      = (List.range (samplesCount d cfg.samplingRate)).map
          (mockTimestamp d cfg.samplingRate now) := by
  simp [generateMockECG, List.map_map]

theorem mockTimestamp_shift (d : ℚ) (r : ℕ) (hr : 0 < r) (n : ℕ)
    (hn : (n : ℚ) = d * r) (m : ℤ) (hm : (m : ℚ) = d * 1000) (now₁ now₂ : ℤ)
    (hanchor : mockStartTime d now₂ = mockStartTime d now₁ + m) (i : ℕ) :
    mockTimestamp d r now₂ i = mockTimestamp d r now₁ (n + i) := by
  have hrne : (r : ℚ) ≠ 0 := Nat.cast_ne_zero.mpr hr.ne'
  have harg : (((n + i : ℕ) : ℚ) / r) * 1000 = (m : ℚ) + ((i : ℚ) / r) * 1000 := by
    push_cast
    rw [hm, hn]
    field_simp
    ring
  unfold mockTimestamp
  rw [hanchor, harg, Int.floor_int_add]
  push_cast
  ring

theorem mockTimestamp_spacing (d : ℚ) (r : ℕ) (hr : 0 < r) (now : ℤ) (i : ℕ) :
    mockTimestamp d r now (i + 1) - mockTimestamp d r now i = (⌊(1000 : ℚ) / r⌋ : ℚ) ∨
    mockTimestamp d r now (i + 1) - mockTimestamp d r now i = (⌈(1000 : ℚ) / r⌉ : ℚ) := by
  have hrne : (r : ℚ) ≠ 0 := Nat.cast_ne_zero.mpr hr.ne'
  have hx1 : (((i + 1 : ℕ)) : ℚ) / r * 1000 = ((i : ℚ) / r) * 1000 + 1000 / r := by
    push_cast
    field_simp
    ring
  have hdiff : mockTimestamp d r now (i + 1) - mockTimestamp d r now i
      = ((⌊((i : ℚ) / r) * 1000 + 1000 / r⌋ - ⌊((i : ℚ) / r) * 1000⌋ : ℤ) : ℚ) := by
    unfold mockTimestamp
    rw [hx1]
    push_cast
    ring
  obtain ⟨hlo, hhi⟩ := floor_add_sub_bounds (((i : ℚ) / r) * 1000) (1000 / r)
  have hceil : ⌈(1000 : ℚ) / r⌉ ≤ ⌊(1000 : ℚ) / r⌋ + 1 := Int.ceil_le_floor_add_one _
  have hcase : ⌊((i : ℚ) / r) * 1000 + 1000 / r⌋ - ⌊((i : ℚ) / r) * 1000⌋ = ⌊(1000 : ℚ) / r⌋ ∨
      ⌊((i : ℚ) / r) * 1000 + 1000 / r⌋ - ⌊((i : ℚ) / r) * 1000⌋ = ⌈(1000 : ℚ) / r⌉ := by
    omega
  rcases hcase with h | h
  · left
    rw [hdiff, h]
  · right
    rw [hdiff, h]

theorem chain'_map_range {α : Type} (R : α → α → Prop) (f : ℕ → α) (N : ℕ)
    (h : ∀ i, i + 1 < N → R (f i) (f (i + 1))) :
    List.Chain' R ((List.range N).map f) := by
  rw [List.chain'_map]
  cases N with
  | zero => simp
  | succ n => exact (List.chain'_range_succ _ n).mpr fun m hm => h m (by omega)

theorem generateMockECG_append_timestamps (d : ℚ) (cfg : ECGConfiguration)
    (hr : 0 < cfg.samplingRate) (n : ℕ) (hn : (n : ℚ) = d * cfg.samplingRate)
    (m : ℤ) (hm : (m : ℚ) = d * 1000) (now₁ now₂ : ℤ) (v₁ v₂ : ℕ → ℚ)
    (hanchor : mockStartTime d now₂ = mockStartTime d now₁ + m) :
    (generateMockECG d cfg now₁ v₁ ++ generateMockECG d cfg now₂ v₂).map
        ECGDataPoint.timestamp
      = (List.range (2 * n)).map (mockTimestamp d cfg.samplingRate now₁) := by
  rw [List.map_append, generateMockECG_map_timestamp, generateMockECG_map_timestamp,
    samplesCount_eq hn, two_mul, List.range_add, List.map_append, List.map_map]
  congr 1
  refine List.map_congr_left fun i hi => ?_
  show mockTimestamp d cfg.samplingRate now₂ i = mockTimestamp d cfg.samplingRate now₁ (n + i)
  exact mockTimestamp_shift d cfg.samplingRate hr n hn m hm now₁ now₂ hanchor i

/-! ### C2 -/

/-- C2 counterexample: with `samplingRate = 128` and duration 1 s, two consecutive
batches whose end-anchors differ by exactly 1000 ms do *not* have constant
inter-sample spacing `1000/128 = 7.8125` ms: the per-sample `Math.floor(t * 1000)`
quantizes every timestamp to whole milliseconds, so consecutive samples are 7 ms or
8 ms apart (already between the first two samples the spacing is 7 ≠ 7.8125). -/
theorem tiling_constant_spacing_counterexample :
    mockStartTime 1 1000 = mockStartTime 1 0 + 1000 ∧
    ¬ List.Chain' (fun a b : ℚ => b - a = 1000 / 128)
      ((generateMockECG 1 DEFAULT_CONFIG 0 (fun _ => 0) ++
        generateMockECG 1 DEFAULT_CONFIG 1000 (fun _ => 0)).map ECGDataPoint.timestamp) := by
  have hanchor : mockStartTime 1 1000 = mockStartTime 1 0 + 1000 := by
    norm_num [mockStartTime]
  refine ⟨hanchor, fun hchain => ?_⟩
  rw [generateMockECG_append_timestamps 1 DEFAULT_CONFIG (by norm_num [DEFAULT_CONFIG])
    128 (by norm_num [DEFAULT_CONFIG]) 1000 (by norm_num) 0 1000 _ _ hanchor] at hchain
  have hlen : (((List.range (2 * 128)).map
      (mockTimestamp 1 DEFAULT_CONFIG.samplingRate 0)).length) = 256 := by
    simp
  have hstep := List.chain'_iff_get.mp hchain 0 (by rw [hlen]; omega)
  simp only [List.get_eq_getElem, List.getElem_map, List.getElem_range] at hstep
  rw [show mockTimestamp 1 DEFAULT_CONFIG.samplingRate 0 (0 + 1) = -993 by
      norm_num [mockTimestamp, mockStartTime, DEFAULT_CONFIG],
    show mockTimestamp 1 DEFAULT_CONFIG.samplingRate 0 0 = -1000 by
      norm_num [mockTimestamp, mockStartTime, DEFAULT_CONFIG]] at hstep
  norm_num at hstep

/-- C2 (amended): for every positive integer sampling rate `r` and positive duration
`d` with `d·r` a whole sample count `n` and `d·1000` a whole number of milliseconds
`m`, two consecutive `generateMockECG` batches whose end-anchors differ by exactly
`m = d·1000` ms concatenate to exactly the first `2n` samples of one single
right-anchored timestamp sequence (no gap or overlap at the boundary), and every
inter-sample spacing — across the batch boundary included — equals `1000/r` ms
rounded down or up to the whole-millisecond grid (`⌊1000/r⌋` or `⌈1000/r⌉`), not the
exact value `1000/r` (timestamps are quantized by `Math.floor(t·1000)`). -/
theorem tiling_quantized_spacing (d : ℚ) (cfg : ECGConfiguration)
    (hr : 0 < cfg.samplingRate) (n : ℕ) (hn : (n : ℚ) = d * cfg.samplingRate)
    (m : ℤ) (hm : (m : ℚ) = d * 1000) (now₁ now₂ : ℤ) (v₁ v₂ : ℕ → ℚ)
    (hanchor : mockStartTime d now₂ = mockStartTime d now₁ + m) :
    (generateMockECG d cfg now₁ v₁ ++ generateMockECG d cfg now₂ v₂).map
        ECGDataPoint.timestamp
      = (List.range (2 * n)).map (mockTimestamp d cfg.samplingRate now₁) ∧
    List.Chain' (fun a b : ℚ =>
        b - a = (⌊(1000 : ℚ) / cfg.samplingRate⌋ : ℚ) ∨
        b - a = (⌈(1000 : ℚ) / cfg.samplingRate⌉ : ℚ))
      ((generateMockECG d cfg now₁ v₁ ++ generateMockECG d cfg now₂ v₂).map
        ECGDataPoint.timestamp) := by
  have heq := generateMockECG_append_timestamps d cfg hr n hn m hm now₁ now₂ v₁ v₂ hanchor
  refine ⟨heq, ?_⟩
  rw [heq]
  exact chain'_map_range _ _ _ fun i _ =>
    mockTimestamp_spacing d cfg.samplingRate hr now₁ i

/-- Witness for C2's amended claim: rate 128, duration 1 s, anchors 0 and 1000. -/
theorem tiling_quantized_spacing_witness :
    0 < DEFAULT_CONFIG.samplingRate ∧ ((128 : ℕ) : ℚ) = 1 * DEFAULT_CONFIG.samplingRate ∧
    ((1000 : ℤ) : ℚ) = 1 * 1000 ∧
    mockStartTime 1 1000 = mockStartTime 1 0 + 1000 ∧
    ((generateMockECG 1 DEFAULT_CONFIG 0 (fun _ => 0) ++
        generateMockECG 1 DEFAULT_CONFIG 1000 (fun _ => 1)).map ECGDataPoint.timestamp
      = (List.range (2 * 128)).map (mockTimestamp 1 DEFAULT_CONFIG.samplingRate 0) ∧
    List.Chain' (fun a b : ℚ =>
        b - a = (⌊(1000 : ℚ) / DEFAULT_CONFIG.samplingRate⌋ : ℚ) ∨
        b - a = (⌈(1000 : ℚ) / DEFAULT_CONFIG.samplingRate⌉ : ℚ))
      ((generateMockECG 1 DEFAULT_CONFIG 0 (fun _ => 0) ++
        generateMockECG 1 DEFAULT_CONFIG 1000 (fun _ => 1)).map ECGDataPoint.timestamp)) :=
  ⟨by norm_num [DEFAULT_CONFIG], by norm_num [DEFAULT_CONFIG], by norm_num,
    by norm_num [mockStartTime],
    tiling_quantized_spacing 1 DEFAULT_CONFIG (by norm_num [DEFAULT_CONFIG]) 128
      (by norm_num [DEFAULT_CONFIG]) 1000 (by norm_num) 0 1000 _ _
      (by norm_num [mockStartTime])⟩

/-! ### C4 helper lemmas -/

theorem mockStartTime_demo (now : ℤ) : mockStartTime (1/5) now = demoAnchor now := by
  unfold mockStartTime demoAnchor
  rw [if_neg (by norm_num)]

theorem demoAnchor_le (now : ℤ) : (demoAnchor now : ℚ) ≤ (now : ℚ) := by
  unfold demoAnchor
  push_cast
  have h := Int.floor_le ((now : ℚ) / 1000)
  linarith

theorem lt_demoAnchor (now : ℤ) : (now : ℚ) - 1000 < (demoAnchor now : ℚ) := by
  unfold demoAnchor
  push_cast
  have h := Int.sub_one_lt_floor ((now : ℚ) / 1000)
  linarith

theorem demoAnchor_mono {a b : ℤ} (h : ⌊(a : ℚ) / 1000⌋ < ⌊(b : ℚ) / 1000⌋) :
    (demoAnchor a : ℚ) + 1000 ≤ (demoAnchor b : ℚ) := by
  unfold demoAnchor
  push_cast
  have h' : (⌊(a : ℚ) / 1000⌋ : ℚ) + 1 ≤ (⌊(b : ℚ) / 1000⌋ : ℚ) := by
    exact_mod_cast h
  linarith

theorem demo_samplesCount : samplesCount (1/5) DEFAULT_CONFIG.samplingRate = 25 := by
  norm_num [samplesCount, DEFAULT_CONFIG]
  decide

theorem demoBatch_timestamp_bounds (now : ℤ) (v : ℕ → ℚ) (p : ECGDataPoint)
    (hp : p ∈ generateMockECG (1/5) DEFAULT_CONFIG now v) :
    (demoAnchor now : ℚ) - 200 ≤ p.timestamp ∧ p.timestamp ≤ (demoAnchor now : ℚ) - 13 := by
  obtain ⟨i, hi, rfl⟩ := List.mem_map.mp hp
  rw [List.mem_range, demo_samplesCount] at hi
  have hts : mockTimestamp (1/5) DEFAULT_CONFIG.samplingRate now i
      = (demoAnchor now : ℚ) - 200 + ((⌊((i : ℚ) / 128) * 1000⌋ : ℤ) : ℚ) := by
    show mockTimestamp (1/5) 128 now i = _
    unfold mockTimestamp
    rw [mockStartTime_demo]
    norm_num
  have h0 : (0 : ℤ) ≤ ⌊((i : ℚ) / 128) * 1000⌋ := Int.le_floor.mpr (by positivity)
  have h187 : ⌊((i : ℚ) / 128) * 1000⌋ ≤ 187 := by
    have hile : (i : ℚ) ≤ 24 := by
      exact_mod_cast Nat.lt_succ_iff.mp hi
    have harg : ((i : ℚ) / 128) * 1000 ≤ 375 / 2 := by
      calc ((i : ℚ) / 128) * 1000 = (i : ℚ) * (125 / 16) := by ring
        _ ≤ 24 * (125 / 16) := by linarith
        _ = 375 / 2 := by norm_num
    calc ⌊((i : ℚ) / 128) * 1000⌋ ≤ ⌊(375 / 2 : ℚ)⌋ := Int.floor_le_floor harg
      _ = 187 := by norm_num
  have h0' : (0 : ℚ) ≤ ((⌊((i : ℚ) / 128) * 1000⌋ : ℤ) : ℚ) := by exact_mod_cast h0
  have h187' : ((⌊((i : ℚ) / 128) * 1000⌋ : ℤ) : ℚ) ≤ 187 := by exact_mod_cast h187
  rw [hts]
  constructor <;> linarith

theorem mockTimestamp_mono (d : ℚ) (r : ℕ) (now : ℤ) {a b : ℕ} (hab : a ≤ b) :
    mockTimestamp d r now a ≤ mockTimestamp d r now b := by
  unfold mockTimestamp
  have harg : ((a : ℚ) / r) * 1000 ≤ ((b : ℚ) / r) * 1000 := by
    rcases Nat.eq_zero_or_pos r with h0 | h0
    · subst h0
      norm_num
    · have hr : (0 : ℚ) < r := by exact_mod_cast h0
      have hq : (a : ℚ) ≤ b := by exact_mod_cast hab
      have h1 : (a : ℚ) / r ≤ (b : ℚ) / r := by gcongr
      linarith
  have hfl : ⌊((a : ℚ) / r) * 1000⌋ ≤ ⌊((b : ℚ) / r) * 1000⌋ := Int.floor_le_floor harg
  have hfl' : ((⌊((a : ℚ) / r) * 1000⌋ : ℤ) : ℚ) ≤ ((⌊((b : ℚ) / r) * 1000⌋ : ℤ) : ℚ) := by
    exact_mod_cast hfl
  linarith

theorem generateMockECG_sorted (d : ℚ) (cfg : ECGConfiguration) (now : ℤ) (v : ℕ → ℚ) :
    (generateMockECG d cfg now v).Pairwise tsLE := by
  unfold generateMockECG
  rw [List.pairwise_map]
  apply List.Pairwise.imp ?_ (List.pairwise_lt_range _)
  intro a b hab
  exact mockTimestamp_mono d cfg.samplingRate now (le_of_lt hab)

theorem mem_appendCycle {st : List ECGDataPoint} {now : ℤ} {v : ℕ → ℚ}
    {p : ECGDataPoint} (hp : p ∈ appendCycle st now v) :
    (p ∈ st ∧ ((now : ℚ) - 12000) < p.timestamp) ∨
      p ∈ generateMockECG (1/5) DEFAULT_CONFIG now v := by
  rcases List.mem_append.mp hp with hp1 | hp2
  · left
    have := List.mem_filter.mp hp1
    exact ⟨this.1, by simpa using this.2⟩
  · right
    exact hp2

theorem runDemo_aux :
    ∀ (cycles : List (ℤ × (ℕ → ℚ))) (st : List ECGDataPoint) (n₀ : ℤ),
      st.Pairwise tsLE →
      (∀ p ∈ st, p.timestamp ≤ (demoAnchor n₀ : ℚ) - 13 ∧
        ((n₀ : ℚ) - 12000) < p.timestamp) →
      List.Chain (fun a b : ℤ => ⌊(a : ℚ) / 1000⌋ < ⌊(b : ℚ) / 1000⌋) n₀
        (cycles.map Prod.fst) →
      (cycles.foldl (fun s c => appendCycle s c.1 c.2) st).Pairwise tsLE ∧
      ∀ p ∈ cycles.foldl (fun s c => appendCycle s c.1 c.2) st,
        p.timestamp ≤ (demoAnchor (lastClock n₀ cycles) : ℚ) - 13 ∧
        ((lastClock n₀ cycles : ℚ) - 12000) < p.timestamp := by
  intro cycles
  induction cycles with
  | nil =>
    intro st n₀ hsort hbound _
    exact ⟨hsort, hbound⟩
  | cons c cs ih =>
    intro st n₀ hsort hbound hchain
    rw [List.map_cons] at hchain
    obtain ⟨hstep, hchain2⟩ := List.chain_cons.mp hchain
    have hanchor : (demoAnchor n₀ : ℚ) + 1000 ≤ (demoAnchor c.1 : ℚ) := demoAnchor_mono hstep
    have hsort2 : (appendCycle st c.1 c.2).Pairwise tsLE := by
      unfold appendCycle
      rw [List.pairwise_append]
      refine ⟨hsort.filter _, generateMockECG_sorted _ _ _ _, ?_⟩
      intro a ha b hb
      have ha2 := hbound a (List.mem_of_mem_filter ha)
      have hb2 := (demoBatch_timestamp_bounds c.1 c.2 b hb).1
      show a.timestamp ≤ b.timestamp
      linarith [ha2.1]
    have hbound2 : ∀ p ∈ appendCycle st c.1 c.2,
        p.timestamp ≤ (demoAnchor c.1 : ℚ) - 13 ∧ ((c.1 : ℚ) - 12000) < p.timestamp := by
      intro p hp
      have hlow := lt_demoAnchor c.1
      rcases mem_appendCycle hp with ⟨hpst, hpcut⟩ | hpb
      · have := hbound p hpst
        exact ⟨by linarith [this.1], hpcut⟩
      · have hb := demoBatch_timestamp_bounds c.1 c.2 p hpb
        exact ⟨hb.2, by linarith [hb.1]⟩
    exact ih (appendCycle st c.1 c.2) c.1 hsort2 hbound2 hchain2

/-! ### C4 -/

/-- C4 counterexample: two append cycles whose clock readings fall in the same
wall-clock second (0 ms and 100 ms — exactly the demo's 100 ms tick interval)
produce batches with the *same* second-aligned anchor, so the concatenated array is
not non-decreasing in timestamp: the first batch ends at −13 ms while the second
batch restarts at −200 ms. -/
theorem append_order_violation_counterexample :
    ¬ (runDemo [(0, fun _ => 0), (100, fun _ => 0)]).Pairwise tsLE := by
  intro hpair
  have hrd : runDemo [(0, fun _ => 0), (100, fun _ => 0)]
      = appendCycle (appendCycle [] 0 (fun _ => 0)) 100 (fun _ => 0) := rfl
  rw [hrd] at hpair
  unfold appendCycle at hpair
  rw [List.filter_nil, List.nil_append, List.pairwise_append] at hpair
  obtain ⟨-, -, hcross⟩ := hpair
  have ha : (⟨0, -13⟩ : ECGDataPoint) ∈
      (generateMockECG (1/5) DEFAULT_CONFIG 0 (fun _ => 0)).filter
        (fun p => ((100 : ℤ) : ℚ) - 12000 < p.timestamp) := by
    rw [List.mem_filter]
    constructor
    · unfold generateMockECG
      refine List.mem_map.mpr ⟨24, List.mem_range.mpr (by rw [demo_samplesCount]; omega), ?_⟩
      have : mockTimestamp (1/5) DEFAULT_CONFIG.samplingRate 0 24 = -13 := by
        norm_num [mockTimestamp, mockStartTime, DEFAULT_CONFIG]
      rw [this]
    · norm_num
  have hb : (⟨0, -200⟩ : ECGDataPoint) ∈ generateMockECG (1/5) DEFAULT_CONFIG 100 (fun _ => 0) := by
    unfold generateMockECG
    refine List.mem_map.mpr ⟨0, List.mem_range.mpr (by rw [demo_samplesCount]; omega), ?_⟩
    have : mockTimestamp (1/5) DEFAULT_CONFIG.samplingRate 100 0 = -200 := by
      norm_num [mockTimestamp, mockStartTime, DEFAULT_CONFIG]
    rw [this]
  have hle := hcross _ ha _ hb
  unfold tsLE at hle
  norm_num at hle

/-- C4 (amended): provided consecutive append cycles' clock readings fall in
strictly increasing wall-clock seconds (so the second-aligned batch anchors
strictly increase — the demo's same-second 100 ms ticks violate this, see the
counterexample), after any sequence of append-and-evict cycles the retained array
is non-decreasing in timestamp, and no retained sample's timestamp is older than
`referenceNow − 12000` where `referenceNow` is the single clock reading of the last
append. -/
theorem append_retention_invariant (c : ℤ × (ℕ → ℚ)) (cs : List (ℤ × (ℕ → ℚ)))
    (hchain : List.Chain (fun a b : ℤ => ⌊(a : ℚ) / 1000⌋ < ⌊(b : ℚ) / 1000⌋) c.1
      (cs.map Prod.fst)) :
    (runDemo (c :: cs)).Pairwise tsLE ∧
    ∀ p ∈ runDemo (c :: cs), ((lastClock c.1 cs : ℚ) - 12000) < p.timestamp := by
  have hbase_sort : (appendCycle [] c.1 c.2).Pairwise tsLE := by
    unfold appendCycle
    rw [List.filter_nil, List.nil_append]
    exact generateMockECG_sorted _ _ _ _
  have hbase_bound : ∀ p ∈ appendCycle [] c.1 c.2,
      p.timestamp ≤ (demoAnchor c.1 : ℚ) - 13 ∧ ((c.1 : ℚ) - 12000) < p.timestamp := by
    intro p hp
    unfold appendCycle at hp
    rw [List.filter_nil, List.nil_append] at hp
    have hb := demoBatch_timestamp_bounds c.1 c.2 p hp
    have hlow := lt_demoAnchor c.1
    exact ⟨hb.2, by linarith [hb.1]⟩
  have hfold := runDemo_aux cs (appendCycle [] c.1 c.2) c.1 hbase_sort hbase_bound hchain
  have hrd : runDemo (c :: cs) = cs.foldl (fun s d => appendCycle s d.1 d.2)
      (appendCycle [] c.1 c.2) := rfl
  rw [hrd]
  exact ⟨hfold.1, fun p hp => (hfold.2 p hp).2⟩

/-- Witness for C4's amended claim: two cycles at clock readings 0 and 1000 ms
(strictly increasing seconds). -/
theorem append_retention_invariant_witness :
    List.Chain (fun a b : ℤ => ⌊(a : ℚ) / 1000⌋ < ⌊(b : ℚ) / 1000⌋) 0
      (([((1000 : ℤ), fun _ : ℕ => (0 : ℚ))]).map Prod.fst) ∧
    ((runDemo (((0 : ℤ), fun _ : ℕ => (0 : ℚ)) :: [((1000 : ℤ), fun _ : ℕ => (0 : ℚ))])).Pairwise
        tsLE ∧
      ∀ p ∈ runDemo (((0 : ℤ), fun _ : ℕ => (0 : ℚ)) :: [((1000 : ℤ), fun _ : ℕ => (0 : ℚ))]),
        ((lastClock (0 : ℤ) [((1000 : ℤ), fun _ : ℕ => (0 : ℚ))] : ℚ) - 12000) < p.timestamp) := by
  have hchain : List.Chain (fun a b : ℤ => ⌊(a : ℚ) / 1000⌋ < ⌊(b : ℚ) / 1000⌋) 0
      (([((1000 : ℤ), fun _ : ℕ => (0 : ℚ))]).map Prod.fst) := by
    refine List.Chain.cons ?_ List.Chain.nil
    norm_num
  exact ⟨hchain, append_retention_invariant ((0 : ℤ), fun _ : ℕ => (0 : ℚ))
    [((1000 : ℤ), fun _ : ℕ => (0 : ℚ))] hchain⟩

end ECGViz
